import Mathlib

/-!
Verification of the response-extraction and impact-calculation pipeline of
`src/app.py` (analyser_gov).  The Python functions `parse_llm_response`,
`extract_percentage`, `calculate_financial_impact`, `create_report_text` and
the orchestration line `reajuste = extract_percentage(...) or 5.0` are
shallowly embedded below.  Text is modelled as `List Char`; Python floats are
modelled as exact rationals (`ℚ`); a Python exception escaping a function is
modelled by an `Option` result being `none`.
-/

/-- The characters of a string literal, the text type used throughout. -/
def chars (s : String) : List Char := s.data

/-- Whitespace as Python's `str.strip()` removes it (the ASCII cases). -/
def pyWs (c : Char) : Bool :=
  c == ' ' || c == '\t' || c == '\n' || c == '\r' || c == '\x0b' || c == '\x0c'

/-- Python `str.lstrip()`. -/
def lstrip (s : List Char) : List Char := s.dropWhile pyWs

/-- Python `str.rstrip()`. -/
def rstrip (s : List Char) : List Char := (s.reverse.dropWhile pyWs).reverse

/-- Python `str.strip()`. -/
def pyStrip (s : List Char) : List Char := rstrip (lstrip s)

/-- Python `str.find(pat)`: the least index where `pat` occurs, `none` when
`pat` does not occur (Python returns `-1` there; the code under study only
calls `find` after an `in` containment test, so the `none` case never feeds
the slice). -/
def findSub (pat : List Char) : List Char → Option Nat
  | [] => if pat <+: ([] : List Char) then some 0 else none
  | c :: t => if pat <+: (c :: t) then some 0 else (findSub pat t).map (· + 1)

/-- Python `str.rfind(pat)`: the greatest index where `pat` occurs. -/
def rfindSub (pat : List Char) : List Char → Option Nat
  | [] => if pat <+: ([] : List Char) then some 0 else none
  | c :: t =>
    match rfindSub pat t with
    | some i => some (i + 1)
    | none => if pat <+: (c :: t) then some 0 else none

/-- Python slice `s[a:b]` for `0 ≤ a, b` (the only case the code reaches). -/
def pySlice (s : List Char) (a b : Nat) : List Char := (s.take b).drop a

/-- The values `json.loads` can produce.  Python keeps `int` and `float`
apart, so the embedding does too; a parsed object is the member list in
source order (lookup takes the last binding, as a `dict` built left to right
would). -/
inductive Json where
  | obj (members : List (List Char × Json))
  | arr (elements : List Json)
  | str (s : List Char)
  | jint (n : Int)
  | jfloat (q : ℚ)
  | bool (b : Bool)
  | null

/-- JSON structural whitespace (RFC 8259, what Python's `json` skips). -/
def jWs (c : Char) : Bool := c == ' ' || c == '\t' || c == '\n' || c == '\r'

/-- Drop JSON structural whitespace. -/
def skipWs (s : List Char) : List Char := s.dropWhile jWs

/-- Value of a hexadecimal digit. -/
def hexVal (c : Char) : Option Nat :=
  if '0' ≤ c ∧ c ≤ '9' then some (c.toNat - 48)
  else if 'a' ≤ c ∧ c ≤ 'f' then some (c.toNat - 87)
  else if 'A' ≤ c ∧ c ≤ 'F' then some (c.toNat - 55)
  else none

/-- Four hex digits of a `\u` escape. -/
def parseHex4 : List Char → Option (Nat × List Char)
  | a :: b :: c :: d :: r =>
    match hexVal a, hexVal b, hexVal c, hexVal d with
    | some x, some y, some z, some w => some (((x * 16 + y) * 16 + z) * 16 + w, r)
    | _, _, _, _ => none
  | _ => none

/-- JSON string body after the opening quote: the decoded characters and the
rest of the input.  Strict mode: raw control characters are rejected.  Fuel
bounds the recursion; `jsonLoads` supplies more fuel than the input length. -/
def parseJString : Nat → List Char → Option (List Char × List Char)
  | 0, _ => none
  | _ + 1, [] => none
  | _ + 1, '"' :: r => some ([], r)
  | fuel + 1, '\\' :: e :: r =>
    let cont := fun (c : Char) (r' : List Char) =>
      (parseJString fuel r').map (fun p => (c :: p.1, p.2))
    match e with
    | '"' => cont '"' r
    | '\\' => cont '\\' r
    | '/' => cont '/' r
    | 'b' => cont '\x08' r
    | 'f' => cont '\x0c' r
    | 'n' => cont '\n' r
    | 'r' => cont '\r' r
    | 't' => cont '\t' r
    | 'u' =>
      match parseHex4 r with
      | some (n, r') => cont (Char.ofNat n) r'
      | none => none
    | _ => none
  | fuel + 1, c :: r =>
    if c.toNat < 32 then none
    else (parseJString fuel r).map (fun p => (c :: p.1, p.2))

/-- Decimal value of a digit run. -/
def digitsToNat (l : List Char) : Nat := l.foldl (fun a c => 10 * a + (c.toNat - 48)) 0

/-- Ten to an integer power, as a rational. -/
def pow10 (e : Int) : ℚ :=
  if 0 ≤ e then ((10 : ℚ) ^ e.toNat) else 1 / ((10 : ℚ) ^ (-e).toNat)

/-- JSON number at the head of the input.  An integer literal yields
`Json.jint`; a fraction or exponent yields `Json.jfloat` (Python builds a
binary double there; the embedding keeps the exact rational value). -/
def parseJNumber (s : List Char) : Option (Json × List Char) :=
  let signed := match s with
    | '-' :: r => (true, r)
    | _ => (false, s)
  let neg := signed.1
  let s1 := signed.2
  let ip := s1.takeWhile Char.isDigit
  let r1 := s1.dropWhile Char.isDigit
  if ip.isEmpty then none
  else if 1 < ip.length ∧ ip.headD '0' = '0' then none
  else
    let ipv : Int := (digitsToNat ip : Int)
    let fracPart := match r1 with
      | '.' :: r2 =>
        let fp := r2.takeWhile Char.isDigit
        if fp.isEmpty then none
        else some (some fp, r2.dropWhile Char.isDigit)
      | _ => some (Option.none, r1)
    match fracPart with
    | none => none
    | some (fp, r2) =>
      let expPart := match r2 with
        | 'e' :: r3 => some r3
        | 'E' :: r3 => some r3
        | _ => none
      match expPart with
      | none =>
        match fp with
        | none => some (Json.jint (if neg then -ipv else ipv), r2)
        | some f =>
          let q : ℚ := (digitsToNat ip : ℚ) + (digitsToNat f : ℚ) / pow10 (f.length : Int)
          some (Json.jfloat (if neg then -q else q), r2)
      | some r3 =>
        let esigned := match r3 with
          | '+' :: r4 => (false, r4)
          | '-' :: r4 => (true, r4)
          | _ => (false, r3)
        let ed := esigned.2.takeWhile Char.isDigit
        let r5 := esigned.2.dropWhile Char.isDigit
        if ed.isEmpty then none
        else
          let e : Int := if esigned.1 then -(digitsToNat ed : Int) else (digitsToNat ed : Int)
          let mant : ℚ := (digitsToNat ip : ℚ) +
            (match fp with
             | none => 0
             | some f => (digitsToNat f : ℚ) / pow10 (f.length : Int))
          let q : ℚ := mant * pow10 e
          some (Json.jfloat (if neg then -q else q), r5)

mutual

/-- One JSON value at the head of the input (leading whitespace allowed),
with the unread rest. -/
def parseValue : Nat → List Char → Option (Json × List Char)
  | 0, _ => none
  | fuel + 1, s =>
    match skipWs s with
    | '\x7b' :: r =>
      match skipWs r with
      | '\x7d' :: r' => some (Json.obj [], r')
      | r' => parseMembers fuel r'
    | '[' :: r =>
      match skipWs r with
      | ']' :: r' => some (Json.arr [], r')
      | r' => parseElems fuel r'
    | '"' :: r => (parseJString fuel r).map (fun p => (Json.str p.1, p.2))
    | 't' :: 'r' :: 'u' :: 'e' :: r => some (Json.bool true, r)
    | 'f' :: 'a' :: 'l' :: 's' :: 'e' :: r => some (Json.bool false, r)
    | 'n' :: 'u' :: 'l' :: 'l' :: r => some (Json.null, r)
    | s' => parseJNumber s'

/-- Members of an object, cursor at the first key's opening quote. -/
def parseMembers : Nat → List Char → Option (Json × List Char)
  | 0, _ => none
  | fuel + 1, s =>
    match s with
    | '"' :: r =>
      match parseJString fuel r with
      | some (k, r1) =>
        match skipWs r1 with
        | ':' :: r2 =>
          match parseValue fuel r2 with
          | some (v, r3) =>
            match skipWs r3 with
            | ',' :: r4 =>
              match parseMembers fuel (skipWs r4) with
              | some (Json.obj ms, r5) => some (Json.obj ((k, v) :: ms), r5)
              | _ => none
            | '\x7d' :: r4 => some (Json.obj [(k, v)], r4)
            | _ => none
          | none => none
        | _ => none
      | none => none
    | _ => none

/-- Elements of an array, cursor at the first element. -/
def parseElems : Nat → List Char → Option (Json × List Char)
  | 0, _ => none
  | fuel + 1, s =>
    match parseValue fuel s with
    | some (v, r) =>
      match skipWs r with
      | ',' :: r2 =>
        match parseElems fuel r2 with
        | some (Json.arr vs, r3) => some (Json.arr (v :: vs), r3)
        | _ => none
      | ']' :: r2 => some (Json.arr [v], r2)
      | _ => none
    | none => none

end

/-- Python `json.loads`: one JSON value, whitespace around it, nothing else.
`none` models the `json.JSONDecodeError` the strict parser raises. -/
def jsonLoads (s : List Char) : Option Json :=
  match parseValue (s.length + 1) s with
  | some (v, rest) => if (skipWs rest).isEmpty then some v else none
  | none => none

/-- Steps 2 to 4 of `parse_llm_response` (`src/app.py` lines 246 to 254): if
the trimmed reply contains "```json", slice from just after the first such
marker to the last occurrence of "```"; else if it contains "```", slice from
just after the first such marker to the last occurrence of "```"; else keep
the text as is. -/
def fenceSlice (clean : List Char) : List Char :=
  match findSub (chars "```json") clean with
  | some i => pySlice clean (i + 7) ((rfindSub (chars "```") clean).getD 0)
  | none =>
    match findSub (chars "```") clean with
    | some i => pySlice clean (i + 3) ((rfindSub (chars "```") clean).getD 0)
    | none => clean

/-- The function `parse_llm_response` of `src/app.py` (lines 240 to 260):
strip, remove a markdown fence when present, `json.loads` the rest, and on
any exception return the empty dict.  A successful parse is returned as is,
whatever value it is. -/
def parse_llm_response (response_text : List Char) : Json :=
  match jsonLoads (pyStrip (fenceSlice (pyStrip response_text))) with
  | some j => j
  | none => Json.obj []

/-- Whether a list starts with the character `c`. -/
def headIs (c : Char) : List Char → Bool
  | x :: _ => x == c
  | [] => false

/-- The head-anchored attempt of the regex `(\d+(\.\d+)?)%` of
`extract_percentage` (`src/app.py` line 226): a maximal nonempty digit run,
then optionally a dot and a maximal nonempty digit run, then `%`; the value
is `float` of the first capture group.  Backtracking the greedy runs can
never help (a shorter run leaves a digit next, which is neither `.` nor `%`),
so the attempt is deterministic. -/
def matchPercentAt (s : List Char) : Option ℚ :=
  let d1 := s.takeWhile Char.isDigit
  let r1 := s.dropWhile Char.isDigit
  if d1.isEmpty then none
  else if headIs '%' r1 then some ((digitsToNat d1 : ℚ))
  else if headIs '.' r1 then
    let r2 := r1.tail
    let d2 := r2.takeWhile Char.isDigit
    let r3 := r2.dropWhile Char.isDigit
    if d2.isEmpty then none
    else if headIs '%' r3 then
      some ((digitsToNat d1 : ℚ) + (digitsToNat d2 : ℚ) / (10 : ℚ) ^ d2.length)
    else none
  else none

/-- Left-to-right scan of `re.search`: the match at the least starting
position wins. -/
def scanPercent : List Char → Option ℚ
  | [] => none
  | c :: cs =>
    match matchPercentAt (c :: cs) with
    | some v => some v
    | none => scanPercent cs

/-- The function `extract_percentage` of `src/app.py` (lines 225 to 229):
first match of `(\d+(\.\d+)?)%` as a float, else `None`. -/
def extract_percentage (s : List Char) : Option ℚ := scanPercent s

/-- A Python value as the calculator can receive it: a number (Python
`int`/`float`, modelled as an exact rational), a string, or `None`. -/
inductive PyVal where
  | num (q : ℚ)
  | str (s : List Char)
  | none
  deriving DecidableEq

/-- Whether a `PyVal` is numeric. -/
def PyVal.isNumeric : PyVal → Bool
  | PyVal.num _ => true
  | _ => false

/-- The function `calculate_financial_impact` of `src/app.py` (lines 231 to
238): `reajuste_decimal = reajuste_percent / 100`, `impacto_mensal =
personnel_expenses * reajuste_decimal`, `impacto_anual = impacto_mensal *
12`, wrapped in `try/except` returning `(None, None)`.  Division by the
literal `100` and multiplication raise `TypeError` exactly when an operand is
not numeric, so the except branch (`none` here, standing for the pair of
`None` markers) is taken exactly on non-numeric input. -/
def calculate_financial_impact : PyVal → PyVal → Option (ℚ × ℚ)
  | PyVal.num e, PyVal.num p => some (e * (p / 100), e * (p / 100) * 12)
  | _, _ => Option.none

/-- Python `x or d` for an optional float `x`: `None` and `0.0` are falsy. -/
def pyOrQ : Option ℚ → ℚ → ℚ
  | some v, d => if v = 0 then d else v
  | Option.none, d => d

/-- Last binding of a key in a member list, the lookup a Python `dict` built
from the list would give. -/
def lookupLast (l : List (List Char × Json)) (k : List Char) : Option Json :=
  match l with
  | [] => Option.none
  | (k', v) :: t =>
    match lookupLast t k with
    | some r => some r
    | Option.none => if k' = k then some v else Option.none

/-- Line 660 of `src/app.py`:
`reajuste = extract_percentage(dados.get("reajuste_proposto", "0%")) or 5.0`.
`none` models an exception escaping the line (a non-dict `dados`, whose
`.get` raises `AttributeError`, or a non-string field value, on which
`re.search` raises `TypeError`); the top-level handler of the run catches it.
Otherwise the extracted percentage, with `None` and `0.0` both replaced by
the default `5.0`. -/
def analysis_reajuste (dados : Json) : Option ℚ :=
  match dados with
  | Json.obj l =>
    match lookupLast l (chars "reajuste_proposto") with
    | some (Json.str s) => some (pyOrQ (extract_percentage s) 5)
    | Option.none => some (pyOrQ (extract_percentage (chars "0%")) 5)
    | some _ => Option.none
  | _ => Option.none

/-- Decimal digits of a natural number, most significant first. -/
def natDigitsMSD (n : Nat) : List Char := Nat.toDigits 10 n

/-- Insert a comma after every third character; the input is the reversed
digit list, so commas land every three digits counting from the right. -/
def commasAux : List Char → List Char
  | a :: b :: c :: d :: t => a :: b :: c :: ',' :: commasAux (d :: t)
  | l => l

/-- Thousands separators as Python's `,` format flag places them. -/
def withCommas (ds : List Char) : List Char := (commasAux ds.reverse).reverse

/-- Two decimal digits, zero padded. -/
def pad2 (n : Nat) : List Char := if n < 10 then '0' :: natDigitsMSD n else natDigitsMSD n

/-- Round to the nearest integer, ties to even — the rounding Python's fixed
point float formatting applies. -/
def roundHalfEven (y : ℚ) : Int :=
  let f := y.floor
  if y - f < 1 / 2 then f
  else if 1 / 2 < y - f then f + 1
  else if f % 2 = 0 then f else f + 1

/-- Python format `"{x:.2f}"` (and `"{x:,.2f}"` when `sep` is true) on a
float, the float modelled as an exact rational. -/
def fmtFixed2 (sep : Bool) (x : ℚ) : List Char :=
  let c := roundHalfEven (x * 100)
  let n := c.natAbs
  let ipart := if sep then withCommas (natDigitsMSD (n / 100)) else natDigitsMSD (n / 100)
  (if c < 0 then ['-'] else []) ++ ipart ++ '.' :: pad2 (n % 100)

/-- Python `"{x:.2f}"`. -/
def fmtPct (x : ℚ) : List Char := fmtFixed2 false x

/-- Python `"{x:,.2f}"`. -/
def fmtMoney (x : ℚ) : List Char := fmtFixed2 true x

/-- Separator-joined concatenation (Python `sep.join`). -/
def joinChunks (sep : List Char) : List (List Char) → List Char
  | [] => []
  | [x] => x
  | x :: y :: t => x ++ sep ++ joinChunks sep (y :: t)

/-- Python `repr` of a parsed JSON value, approximated: exact for integers,
booleans and `None`; strings are single quoted without escape handling;
floats (kept as exact rationals in this embedding) render as `num/den`.  No
claim under verification reaches this rendering — every field the claims
exercise is a string or absent. -/
def pyReprJson : Json → List Char
  | Json.str s => Char.ofNat 39 :: s ++ [Char.ofNat 39]
  | Json.jint n => chars (toString n)
  | Json.jfloat q => chars (toString q.num) ++ '/' :: chars (toString q.den)
  | Json.bool true => chars "True"
  | Json.bool false => chars "False"
  | Json.null => chars "None"
  | Json.arr l => '[' :: joinChunks (chars ", ") (l.attach.map (fun x => pyReprJson x.1)) ++ [']']
  | Json.obj l =>
    '\x7b' :: joinChunks (chars ", ")
      (l.attach.map (fun p => Char.ofNat 39 :: p.1.1 ++ Char.ofNat 39 :: ':' :: ' ' :: pyReprJson p.1.2)) ++ ['\x7d']
decreasing_by
  · have h := List.sizeOf_lt_of_mem x.2
    simp only [Json.arr.sizeOf_spec]
    omega
  · obtain ⟨⟨k, v⟩, hm⟩ := p
    have h := List.sizeOf_lt_of_mem hm
    simp only [Prod.mk.sizeOf_spec] at h
    simp only [Json.obj.sizeOf_spec]
    omega

/-- Python `str()` of a parsed JSON value, as an f-string renders it.  A
string renders as itself — the only case the claims reach, since every
`.get` default the report uses is a string; other cases follow `pyReprJson`'s
approximation of CPython's rendering. -/
def pyStrOfJson : Json → List Char
  | Json.str s => s
  | j => pyReprJson j

/-- A proposal field as the report renders it: `extracted_data.get(key,
'Não especificado')` placed into the f-string. -/
def reportField (d : List (List Char × Json)) (k : List Char) : List Char :=
  pyStrOfJson ((lookupLast d k).getD (Json.str (chars "Não especificado")))

/-- A legal-validation field: `validacao.get(key, 'N/A')`. -/
def reportValField (d : List (List Char × Json)) (k : List Char) : List Char :=
  pyStrOfJson ((lookupLast d k).getD (Json.str (chars "N/A")))

/-- Python truthiness of a parsed JSON value. -/
def pyTruthy : Json → Bool
  | Json.obj l => !l.isEmpty
  | Json.arr l => !l.isEmpty
  | Json.str s => !s.isEmpty
  | Json.jint n => n != 0
  | Json.jfloat q => q != 0
  | Json.bool b => b
  | Json.null => false

/-- The element strings of a list value; `none` when an element is not a
string (Python `str.join` raises `TypeError` there). -/
def strsOfJsonList : List Json → Option (List (List Char))
  | [] => some []
  | Json.str s :: t => (strsOfJsonList t).map (fun l => s :: l)
  | _ :: _ => Option.none

/-- Python `sep.join(v)`: joins a list of strings; a plain string joins its
characters; anything else raises (`none`). -/
def pyJoin (sep : List Char) : Json → Option (List Char)
  | Json.arr l => (strsOfJsonList l).map (joinChunks sep)
  | Json.str s => some (joinChunks sep (s.map (fun c => [c])))
  | _ => Option.none

/-- Line 263 of `src/app.py`: `ajustes_str = "\n- ".join(sugestoes.get(
"ajustes_sugeridos", [])) if sugestoes and sugestoes.get("ajustes_sugeridos")
else "Nenhum ajuste sugerido."`.  `none` models the `TypeError` `join` raises
on a non-string element. -/
def ajustes_str (sugestoes : List (List Char × Json)) : Option (List Char) :=
  let v := (lookupLast sugestoes (chars "ajustes_sugeridos")).getD (Json.arr [])
  if !sugestoes.isEmpty && pyTruthy v then pyJoin (chars "\n- ") v
  else some (chars "Nenhum ajuste sugerido.")

/-- The function `create_report_text` of `src/app.py` (lines 262 to 289).
The result is `none` exactly when the Python function raises: when the
suggestion join raises, or when an impact figure is the `None` marker, on
which the f-string's `:,.2f` format raises `TypeError`.  (A non-dict
argument would raise at `.get` before any of this; the claims quantify over
mappings, so the arguments here are member lists.) -/
def create_report_text (extracted_data validacao sugestoes : List (List Char × Json))
    (reajuste_percent personnel_expenses : ℚ)
    (mensal_impact anual_impact : Option ℚ) : Option (List Char) :=
  match ajustes_str sugestoes, mensal_impact, anual_impact with
  | some aj, some m, some a => some (
      chars "\nEstudo de Impacto Financeiro - Proposta de Reajuste Salarial\n\n1. Descrição da Proposta:\n- Tipo: " ++
      reportField extracted_data (chars "tipo_proposta") ++
      chars "\n- Setor Afetado: " ++ reportField extracted_data (chars "setor_afetado") ++
      chars "\n- Detalhes Adicionais: " ++ reportField extracted_data (chars "detalhes_adicionais") ++
      chars "\n- Percentual de Reajuste: " ++ fmtPct reajuste_percent ++
      chars "%\n- Abrangência Temporal: " ++ reportField extracted_data (chars "abrangencia_temporal") ++
      chars "\n- Quantitativo Envolvido: " ++ reportField extracted_data (chars "quantitativo_envolvido") ++
      chars "\n- Fonte Orçamentária: " ++ reportField extracted_data (chars "fonte_orcamentaria") ++
      chars "\n- Condicionantes Legais: " ++ reportField extracted_data (chars "condicionantes_legais") ++
      chars "\n- Natureza Jurídica: " ++ reportField extracted_data (chars "natureza_juridica_da_medida") ++
      chars "\n\n2. Resultados do Cálculo:\n- Gastos Atuais com Pessoal: R$ " ++ fmtMoney personnel_expenses ++
      chars "\n- Impacto Mensal: R$ " ++ fmtMoney m ++
      chars "\n- Impacto Anual: R$ " ++ fmtMoney a ++
      chars "\n\n3. Validação Jurídica:\n- Cumpre LRF? " ++ reportValField validacao (chars "cumpre_lrf") ++
      chars "\n- Justificativa: " ++ reportValField validacao (chars "justificativa") ++
      chars "\n\n4. Ajustes Sugeridos:\n- " ++ aj ++ chars "\n    ")
  | _, _, _ => Option.none

/-- The fixed report text when every proposal field is absent (each line
carries the sentinel "Não especificado"), the verdict and justification are
absent (rendered "N/A"), and the suggestion list is empty or absent (the
fixed sentence "Nenhum ajuste sugerido." replaces the bulleted list).  Only
the three formatted monetary figures and the formatted percentage vary. -/
def reportAllDefaults (reajuste_percent personnel_expenses mensal anual : ℚ) : List Char :=
  chars "\nEstudo de Impacto Financeiro - Proposta de Reajuste Salarial\n\n1. Descrição da Proposta:\n- Tipo: " ++
  chars "Não especificado" ++
  chars "\n- Setor Afetado: " ++ chars "Não especificado" ++
  chars "\n- Detalhes Adicionais: " ++ chars "Não especificado" ++
  chars "\n- Percentual de Reajuste: " ++ fmtPct reajuste_percent ++
  chars "%\n- Abrangência Temporal: " ++ chars "Não especificado" ++
  chars "\n- Quantitativo Envolvido: " ++ chars "Não especificado" ++
  chars "\n- Fonte Orçamentária: " ++ chars "Não especificado" ++
  chars "\n- Condicionantes Legais: " ++ chars "Não especificado" ++
  chars "\n- Natureza Jurídica: " ++ chars "Não especificado" ++
  chars "\n\n2. Resultados do Cálculo:\n- Gastos Atuais com Pessoal: R$ " ++ fmtMoney personnel_expenses ++
  chars "\n- Impacto Mensal: R$ " ++ fmtMoney mensal ++
  chars "\n- Impacto Anual: R$ " ++ fmtMoney anual ++
  chars "\n\n3. Validação Jurídica:\n- Cumpre LRF? " ++ chars "N/A" ++
  chars "\n- Justificativa: " ++ chars "N/A" ++
  chars "\n\n4. Ajustes Sugeridos:\n- " ++ chars "Nenhum ajuste sugerido." ++ chars "\n    "

/-- A nonempty run of decimal digits. -/
def IsDigitRun (l : List Char) : Prop := l ≠ [] ∧ ∀ c ∈ l, c.isDigit

/-- Declarative reading of one match of the regex `(\d+(\.\d+)?)%` at the
head of `t`: a nonempty digit run, optionally a dot and another nonempty
digit run, immediately followed by `%`; `v` is the float value of the first
capture group. -/
def PercentToken (t : List Char) (v : ℚ) : Prop :=
  (∃ d1, IsDigitRun d1 ∧ (d1 ++ ['%']) <+: t ∧ v = (digitsToNat d1 : ℚ)) ∨
  (∃ d1 d2, IsDigitRun d1 ∧ IsDigitRun d2 ∧ (d1 ++ '.' :: (d2 ++ ['%'])) <+: t ∧
    v = (digitsToNat d1 : ℚ) + (digitsToNat d2 : ℚ) / (10 : ℚ) ^ d2.length)

/-- The pattern `(\d+(\.\d+)?)%` matches at position `i` of `s` with value
`v`. -/
def TokenAt (s : List Char) (i : Nat) (v : ℚ) : Prop := PercentToken (s.drop i) v

theorem takeWhile_append_not (p : Char → Bool) (d : List Char) (c : Char) (r : List Char)
    (hd : ∀ x ∈ d, p x) (hc : p c = false) :
    (d ++ c :: r).takeWhile p = d ∧ (d ++ c :: r).dropWhile p = c :: r := by
  induction d with
  | nil => simp [List.takeWhile_cons, List.dropWhile_cons, hc]
  | cons a t ih =>
    have ha : p a = true := hd a (by simp)
    have ht : ∀ x ∈ t, p x := fun x hx => hd x (by simp [hx])
    obtain ⟨h1, h2⟩ := ih ht
    simp [List.takeWhile_cons, List.dropWhile_cons, ha, h1, h2]

/-- C3: for non-negative baseline expense `E` and percentage `P`, the impact
calculator returns exactly `(E * P / 100, E * P / 100 * 12)`: monthly impact
is the expense times the percentage over one hundred, and annual impact is
exactly twelve times the monthly impact. -/
theorem calculate_financial_impact_formula (E P : ℚ) (hE : 0 ≤ E) (hP : 0 ≤ P) :
    calculate_financial_impact (PyVal.num E) (PyVal.num P) =
      some (E * P / 100, E * P / 100 * 12) ∧
    ∀ m a, calculate_financial_impact (PyVal.num E) (PyVal.num P) = some (m, a) →
      a = 12 * m := by
  have h1 : E * (P / 100) = E * P / 100 := (mul_div_assoc E P 100).symm
  constructor
  · simp only [calculate_financial_impact, h1]
  · intro m a h
    simp only [calculate_financial_impact, Option.some.injEq, Prod.mk.injEq] at h
    obtain ⟨hm, ha⟩ := h
    rw [← hm, ← ha]
    ring

/-- Witness for C3 at the spec's first end-to-end scenario: expense
1,000,000 and percentage 7 give 70,000 monthly and 840,000 annually. -/
theorem calculate_financial_impact_formula_witness :
    calculate_financial_impact (PyVal.num 1000000) (PyVal.num 7) = some (70000, 840000) := by
  have h := (calculate_financial_impact_formula 1000000 7 (by norm_num) (by norm_num)).1
  rw [h]
  norm_num

/-- C7: when either argument of the impact calculator is not numeric, the
`try/except` yields the pair of undefined markers (modelled `none`) and no
exception escapes. -/
theorem calculate_financial_impact_nonnumeric_none (e p : PyVal)
    (h : e.isNumeric = false ∨ p.isNumeric = false) :
    calculate_financial_impact e p = Option.none := by
  cases e <;> cases p <;> simp_all [PyVal.isNumeric, calculate_financial_impact]

/-- Witness for C7: a string expense with a numeric percentage. -/
theorem calculate_financial_impact_nonnumeric_none_witness :
    calculate_financial_impact (PyVal.str (chars "abc")) (PyVal.num 5) = Option.none :=
  calculate_financial_impact_nonnumeric_none _ _ (Or.inl rfl)

/-- C4: when the "reajuste_proposto" field is a string from which
`extract_percentage` extracts nothing (`None`), line 660's `or 5.0` makes the
run's percentage the fixed default 5.0, so the impact calculator receives a
numeric percentage. -/
theorem analysis_reajuste_default_on_not_found (l : List (List Char × Json)) (s : List Char)
    (hf : lookupLast l (chars "reajuste_proposto") = some (Json.str s))
    (hn : extract_percentage s = Option.none) :
    analysis_reajuste (Json.obj l) = some 5 := by
  simp [analysis_reajuste, hf, hn, pyOrQ]

/-- Witness for C4: a field with no percentage token. -/
theorem analysis_reajuste_default_on_not_found_witness :
    analysis_reajuste (Json.obj [(chars "reajuste_proposto", Json.str (chars "sem percentual"))]) =
      some 5 :=
  analysis_reajuste_default_on_not_found _ _ rfl rfl

/-- C9: when extraction from the "reajuste_proposto" field succeeds with the
value 0.0, Python's `or` treats the falsy 0.0 like `None`, so the percentage
used downstream is the fallback 5.0, not the extracted 0.0. -/
theorem analysis_reajuste_zero_treated_as_missing (l : List (List Char × Json)) (s : List Char)
    (hf : lookupLast l (chars "reajuste_proposto") = some (Json.str s))
    (h0 : extract_percentage s = some 0) :
    analysis_reajuste (Json.obj l) = some 5 := by
  simp [analysis_reajuste, hf, h0, pyOrQ]

/-- Witness for C9: the field "0%" extracts 0.0 and the run still uses 5.0. -/
theorem analysis_reajuste_zero_treated_as_missing_witness :
    analysis_reajuste (Json.obj [(chars "reajuste_proposto", Json.str (chars "0%"))]) = some 5 :=
  analysis_reajuste_zero_treated_as_missing _ _ rfl rfl

/-- C10: with both impact figures the undefined marker `None`, the report
assembler raises while formatting them as currency (modelled `none`); no
report text is produced, whatever the other inputs are. -/
theorem create_report_text_none_figures (dados validacao sugestoes : List (List Char × Json))
    (p e : ℚ) :
    create_report_text dados validacao sugestoes p e Option.none Option.none = Option.none := by
  cases h : ajustes_str sugestoes <;> simp [create_report_text, h]

/-- C2 (amended): `parse_llm_response` is total, and any failure of the
fence-stripping plus strict JSON parse of the slice yields the empty
mapping; but a successful parse is returned as the parsed value even when
its top level is not an object. -/
theorem parse_llm_response_total_policy (s : List Char) :
    (jsonLoads (pyStrip (fenceSlice (pyStrip s))) = Option.none ∧
      parse_llm_response s = Json.obj []) ∨
    (∃ j, jsonLoads (pyStrip (fenceSlice (pyStrip s))) = some j ∧ parse_llm_response s = j) := by
  cases h : jsonLoads (pyStrip (fenceSlice (pyStrip s))) with
  | none => exact Or.inl ⟨rfl, by simp [parse_llm_response, h]⟩
  | some j => exact Or.inr ⟨j, rfl, by simp [parse_llm_response, h]⟩

/-- Counterexample to C2 as stated: the reply "[1, 2]" has a non-object top
level, yet the parser returns the parsed array, not an empty mapping. -/
theorem parse_llm_response_nonobject_cex :
    parse_llm_response (chars "[1, 2]") = Json.arr [Json.jint 1, Json.jint 2] ∧
    Json.arr [Json.jint 1, Json.jint 2] ≠ Json.obj [] :=
  ⟨rfl, fun h => Json.noConfusion h⟩

/-- Counterexample to C1 as stated: a reply wrapping the object with key "a"
and value 1 in a JSON-tagged fence, followed by trailing text that contains a
stray "```"; `rfind` locates the stray marker, the slice is not valid JSON,
and the parser returns the empty mapping instead of the encoded one. -/
theorem parse_llm_response_trailing_fence_cex :
    jsonLoads (pyStrip (chars "\n\x7b\"a\": 1\x7d\n")) =
      some (Json.obj [(chars "a", Json.jint 1)]) ∧
    parse_llm_response (chars "```json\n\x7b\"a\": 1\x7d\n``` veja ``` x") = Json.obj [] ∧
    Json.obj ([] : List (List Char × Json)) ≠ Json.obj [(chars "a", Json.jint 1)] :=
  ⟨rfl, rfl, fun h => by simp at h⟩

theorem infix_extend_left (a m t : List Char) (h : m <:+: t) : m <:+: a ++ t := by
  obtain ⟨s, u, hsu⟩ := h
  refine ⟨a ++ s, u, ?_⟩
  rw [← hsu]
  simp [List.append_assoc]

theorem suffix_prefix_infix (m q rest : List Char) (h : m <:+ q) : m <:+: q ++ rest := by
  obtain ⟨s, hs⟩ := h
  exact ⟨s, rest, by rw [hs]⟩

set_option maxHeartbeats 2000000 in
set_option maxRecDepth 8000 in
/-- C8: whenever the report assembler succeeds with numeric impact figures
(`some txt`), the produced text has the fixed multi-section structure: when
every consulted field is absent and the suggestion list is empty or absent it
is exactly the fixed text `reportAllDefaults`; and for any combination of
inputs, each absent proposal field renders its line with the sentinel
"Não especificado", an absent compliance verdict or justification renders
"N/A", and an empty or absent suggestions list renders the fixed sentence
"Nenhum ajuste sugerido." in place of a bulleted list. -/
theorem create_report_text_defaults
    (dados validacao sugestoes : List (List Char × Json)) (p e m a : ℚ) (txt : List Char)
    (hrun : create_report_text dados validacao sugestoes p e (some m) (some a) = some txt) :
    ((lookupLast dados (chars "tipo_proposta") = Option.none →
      lookupLast dados (chars "setor_afetado") = Option.none →
      lookupLast dados (chars "detalhes_adicionais") = Option.none →
      lookupLast dados (chars "abrangencia_temporal") = Option.none →
      lookupLast dados (chars "quantitativo_envolvido") = Option.none →
      lookupLast dados (chars "fonte_orcamentaria") = Option.none →
      lookupLast dados (chars "condicionantes_legais") = Option.none →
      lookupLast dados (chars "natureza_juridica_da_medida") = Option.none →
      lookupLast validacao (chars "cumpre_lrf") = Option.none →
      lookupLast validacao (chars "justificativa") = Option.none →
      (sugestoes = [] ∨ lookupLast sugestoes (chars "ajustes_sugeridos") = Option.none ∨
        lookupLast sugestoes (chars "ajustes_sugeridos") = some (Json.arr [])) →
      txt = reportAllDefaults p e m a) ∧
    (lookupLast dados (chars "tipo_proposta") = Option.none →
      chars "- Tipo: Não especificado" <:+: txt) ∧
    (lookupLast dados (chars "setor_afetado") = Option.none →
      chars "- Setor Afetado: Não especificado" <:+: txt) ∧
    (lookupLast dados (chars "detalhes_adicionais") = Option.none →
      chars "- Detalhes Adicionais: Não especificado" <:+: txt) ∧
    (lookupLast dados (chars "abrangencia_temporal") = Option.none →
      chars "- Abrangência Temporal: Não especificado" <:+: txt) ∧
    (lookupLast dados (chars "quantitativo_envolvido") = Option.none →
      chars "- Quantitativo Envolvido: Não especificado" <:+: txt) ∧
    (lookupLast dados (chars "fonte_orcamentaria") = Option.none →
      chars "- Fonte Orçamentária: Não especificado" <:+: txt) ∧
    (lookupLast dados (chars "condicionantes_legais") = Option.none →
      chars "- Condicionantes Legais: Não especificado" <:+: txt) ∧
    (lookupLast dados (chars "natureza_juridica_da_medida") = Option.none →
      chars "- Natureza Jurídica: Não especificado" <:+: txt) ∧
    (lookupLast validacao (chars "cumpre_lrf") = Option.none →
      chars "- Cumpre LRF? N/A" <:+: txt) ∧
    (lookupLast validacao (chars "justificativa") = Option.none →
      chars "- Justificativa: N/A" <:+: txt) ∧
    ((sugestoes = [] ∨ lookupLast sugestoes (chars "ajustes_sugeridos") = Option.none ∨
        lookupLast sugestoes (chars "ajustes_sugeridos") = some (Json.arr [])) →
      chars "4. Ajustes Sugeridos:\n- Nenhum ajuste sugerido." <:+: txt)) := by
  cases haj : ajustes_str sugestoes with
  | none =>
    simp only [create_report_text, haj] at hrun
    exact Option.noConfusion hrun
  | some aj =>
    simp only [create_report_text, haj] at hrun
    injection hrun with htxt
    subst htxt
    refine ⟨?_, ?_, ?_, ?_, ?_, ?_, ?_, ?_, ?_, ?_, ?_, ?_⟩
    · intro h1 h2 h3 h4 h5 h6 h7 h8 h9 h10 h11
      have haj2 : ajustes_str sugestoes = some (chars "Nenhum ajuste sugerido.") := by
        rcases h11 with h | h | h
        · subst h; rfl
        · simp [ajustes_str, h, pyTruthy]
        · simp [ajustes_str, h, pyTruthy]
      have haje : aj = chars "Nenhum ajuste sugerido." := by
        rw [haj] at haj2
        exact Option.some.inj haj2
      simp only [reportField, reportValField, h1, h2, h3, h4, h5, h6, h7, h8, h9, h10,
        Option.getD, pyStrOfJson, haje, reportAllDefaults]
    · intro habs
      have hf : reportField dados (chars "tipo_proposta") = chars "Não especificado" := by
        simp [reportField, habs, pyStrOfJson]
      rw [hf]
      simp only [List.append_assoc]
      rw [← List.append_assoc]
      exact suffix_prefix_infix _ _ _
        ⟨chars "\nEstudo de Impacto Financeiro - Proposta de Reajuste Salarial\n\n1. Descrição da Proposta:\n",
          by decide⟩
    · intro habs
      have hf : reportField dados (chars "setor_afetado") = chars "Não especificado" := by
        simp [reportField, habs, pyStrOfJson]
      rw [hf]
      simp only [List.append_assoc]
      iterate 2 apply infix_extend_left
      rw [← List.append_assoc]
      exact suffix_prefix_infix _ _ _ ⟨chars "\n", by decide⟩
    · intro habs
      have hf : reportField dados (chars "detalhes_adicionais") = chars "Não especificado" := by
        simp [reportField, habs, pyStrOfJson]
      rw [hf]
      simp only [List.append_assoc]
      iterate 4 apply infix_extend_left
      rw [← List.append_assoc]
      exact suffix_prefix_infix _ _ _ ⟨chars "\n", by decide⟩
    · intro habs
      have hf : reportField dados (chars "abrangencia_temporal") = chars "Não especificado" := by
        simp [reportField, habs, pyStrOfJson]
      rw [hf]
      simp only [List.append_assoc]
      iterate 8 apply infix_extend_left
      rw [← List.append_assoc]
      exact suffix_prefix_infix _ _ _ ⟨chars "%\n", by decide⟩
    · intro habs
      have hf : reportField dados (chars "quantitativo_envolvido") = chars "Não especificado" := by
        simp [reportField, habs, pyStrOfJson]
      rw [hf]
      simp only [List.append_assoc]
      iterate 10 apply infix_extend_left
      rw [← List.append_assoc]
      exact suffix_prefix_infix _ _ _ ⟨chars "\n", by decide⟩
    · intro habs
      have hf : reportField dados (chars "fonte_orcamentaria") = chars "Não especificado" := by
        simp [reportField, habs, pyStrOfJson]
      rw [hf]
      simp only [List.append_assoc]
      iterate 12 apply infix_extend_left
      rw [← List.append_assoc]
      exact suffix_prefix_infix _ _ _ ⟨chars "\n", by decide⟩
    · intro habs
      have hf : reportField dados (chars "condicionantes_legais") = chars "Não especificado" := by
        simp [reportField, habs, pyStrOfJson]
      rw [hf]
      simp only [List.append_assoc]
      iterate 14 apply infix_extend_left
      rw [← List.append_assoc]
      exact suffix_prefix_infix _ _ _ ⟨chars "\n", by decide⟩
    · intro habs
      have hf : reportField dados (chars "natureza_juridica_da_medida") =
          chars "Não especificado" := by
        simp [reportField, habs, pyStrOfJson]
      rw [hf]
      simp only [List.append_assoc]
      iterate 16 apply infix_extend_left
      rw [← List.append_assoc]
      exact suffix_prefix_infix _ _ _ ⟨chars "\n", by decide⟩
    · intro habs
      have hf : reportValField validacao (chars "cumpre_lrf") = chars "N/A" := by
        simp [reportValField, habs, pyStrOfJson]
      rw [hf]
      simp only [List.append_assoc]
      iterate 24 apply infix_extend_left
      rw [← List.append_assoc]
      exact suffix_prefix_infix _ _ _ ⟨chars "\n\n3. Validação Jurídica:\n", by decide⟩
    · intro habs
      have hf : reportValField validacao (chars "justificativa") = chars "N/A" := by
        simp [reportValField, habs, pyStrOfJson]
      rw [hf]
      simp only [List.append_assoc]
      iterate 26 apply infix_extend_left
      rw [← List.append_assoc]
      exact suffix_prefix_infix _ _ _ ⟨chars "\n", by decide⟩
    · intro h11
      have haj2 : ajustes_str sugestoes = some (chars "Nenhum ajuste sugerido.") := by
        rcases h11 with h | h | h
        · subst h; rfl
        · simp [ajustes_str, h, pyTruthy]
        · simp [ajustes_str, h, pyTruthy]
      have haje : aj = chars "Nenhum ajuste sugerido." := by
        rw [haj] at haj2
        exact Option.some.inj haj2
      rw [haje]
      simp only [List.append_assoc]
      iterate 28 apply infix_extend_left
      rw [← List.append_assoc]
      exact suffix_prefix_infix _ _ _ ⟨chars "\n\n", by decide⟩

set_option maxHeartbeats 2000000 in
set_option maxRecDepth 8000 in
/-- Witness for C8 at the spec's second scenario figures: empty mappings,
percentage 5, expense 500,000, impacts 25,000 and 300,000; the full default
text is produced and carries the sentinel lines. -/
theorem create_report_text_defaults_witness :
    create_report_text [] [] [] 5 500000 (some 25000) (some 300000) =
      some (reportAllDefaults 5 500000 25000 300000) ∧
    chars "- Tipo: Não especificado" <:+: reportAllDefaults 5 500000 25000 300000 ∧
    chars "- Cumpre LRF? N/A" <:+: reportAllDefaults 5 500000 25000 300000 := by
  have hrun : create_report_text [] [] [] 5 500000 (some 25000) (some 300000) =
      some (reportAllDefaults 5 500000 25000 300000) := rfl
  have h := create_report_text_defaults [] [] [] 5 500000 25000 300000
    (reportAllDefaults 5 500000 25000 300000) hrun
  exact ⟨hrun, h.2.1 rfl, h.2.2.2.2.2.2.2.2.2.1 rfl⟩
theorem mem_takeWhile_sat (p : Char → Bool) (l : List Char) :
    ∀ c ∈ l.takeWhile p, p c := by
  induction l with
  | nil => intro c hc; simp [List.takeWhile] at hc
  | cons a t ih =>
    intro c hc
    rw [List.takeWhile_cons] at hc
    by_cases h : p a
    · rw [if_pos h] at hc
      rcases List.mem_cons.mp hc with rfl | hc'
      · exact h
      · exact ih c hc'
    · rw [if_neg h] at hc
      simp at hc


theorem headIs_shape (c : Char) (l : List Char) (hl : headIs c l = true) : ∃ r, l = c :: r := by
  cases l with
  | nil => simp [headIs] at hl
  | cons x r =>
    have hx : x = c := by simpa [headIs] using hl
    exact ⟨r, by rw [hx]⟩

theorem matchPercentAt_complete (t : List Char) (v : ℚ)
    (h : matchPercentAt t = some v) : PercentToken t v := by
  have hsplit := List.takeWhile_append_dropWhile (p := Char.isDigit) (l := t)
  simp only [matchPercentAt] at h
  by_cases he : (t.takeWhile Char.isDigit).isEmpty
  · rw [if_pos he] at h
    exact Option.noConfusion h
  · have hne : t.takeWhile Char.isDigit ≠ [] := fun hq => he (by rw [hq]; rfl)
    rw [if_neg he] at h
    by_cases h1 : headIs '%' (t.dropWhile Char.isDigit)
    · rw [if_pos h1] at h
      obtain ⟨r, hdw⟩ := headIs_shape '%' _ h1
      left
      refine ⟨t.takeWhile Char.isDigit, ⟨hne, mem_takeWhile_sat _ t⟩, ⟨r, ?_⟩,
        (Option.some.inj h).symm⟩
      conv_rhs => rw [← hsplit, hdw]
      simp
    · rw [if_neg h1] at h
      by_cases h2 : headIs '.' (t.dropWhile Char.isDigit)
      · rw [if_pos h2] at h
        obtain ⟨r2, hdw⟩ := headIs_shape '.' _ h2
        rw [hdw, List.tail_cons] at h
        by_cases he2 : (r2.takeWhile Char.isDigit).isEmpty
        · rw [if_pos he2] at h
          exact Option.noConfusion h
        · have hne2 : r2.takeWhile Char.isDigit ≠ [] := fun hq => he2 (by rw [hq]; rfl)
          rw [if_neg he2] at h
          by_cases h3 : headIs '%' (r2.dropWhile Char.isDigit)
          · rw [if_pos h3] at h
            obtain ⟨u, hdw2⟩ := headIs_shape '%' _ h3
            have hsplit2 := List.takeWhile_append_dropWhile (p := Char.isDigit) (l := r2)
            right
            refine ⟨t.takeWhile Char.isDigit, r2.takeWhile Char.isDigit,
              ⟨hne, mem_takeWhile_sat _ t⟩, ⟨hne2, mem_takeWhile_sat _ r2⟩, ⟨u, ?_⟩,
              (Option.some.inj h).symm⟩
            conv_rhs => rw [← hsplit, hdw]
            conv_rhs => rw [← hsplit2, hdw2]
            simp
          · rw [if_neg h3] at h
            exact Option.noConfusion h
      · rw [if_neg h2] at h
        exact Option.noConfusion h

theorem matchPercentAt_sound (t : List Char) (v : ℚ)
    (h : PercentToken t v) : matchPercentAt t = some v := by
  rcases h with ⟨d1, ⟨hne, hall⟩, ⟨u, hu⟩, hv⟩ |
    ⟨d1, d2, ⟨hne1, hall1⟩, ⟨hne2, hall2⟩, ⟨u, hu⟩, hv⟩
  · have ht : t = d1 ++ '%' :: u := by rw [← hu]; simp
    obtain ⟨htw, hdw⟩ := takeWhile_append_not Char.isDigit d1 '%' u hall (by decide)
    have hie : d1.isEmpty = false := by
      cases d1
      · exact absurd rfl hne
      · rfl
    rw [ht]
    simp only [matchPercentAt, htw, hdw, hie, headIs]
    simp [hv]
  · have ht : t = d1 ++ '.' :: (d2 ++ '%' :: u) := by rw [← hu]; simp
    obtain ⟨htw1, hdw1⟩ :=
      takeWhile_append_not Char.isDigit d1 '.' (d2 ++ '%' :: u) hall1 (by decide)
    obtain ⟨htw2, hdw2⟩ := takeWhile_append_not Char.isDigit d2 '%' u hall2 (by decide)
    have hie1 : d1.isEmpty = false := by
      cases d1
      · exact absurd rfl hne1
      · rfl
    have hie2 : d2.isEmpty = false := by
      cases d2
      · exact absurd rfl hne2
      · rfl
    rw [ht]
    simp only [matchPercentAt, htw1, hdw1, hie1, headIs, List.tail_cons, htw2, hdw2, hie2]
    simp [hv]

theorem matchPercentAt_iff (t : List Char) (v : ℚ) :
    matchPercentAt t = some v ↔ PercentToken t v :=
  ⟨matchPercentAt_complete t v, matchPercentAt_sound t v⟩

theorem matchPercentAt_nil : matchPercentAt [] = Option.none := rfl


theorem scanPercent_eq_some_iff (s : List Char) (v : ℚ) :
    scanPercent s = some v ↔
      ∃ i, matchPercentAt (s.drop i) = some v ∧
        ∀ j, j < i → matchPercentAt (s.drop j) = Option.none := by
  induction s with
  | nil =>
    simp [scanPercent, List.drop_nil, matchPercentAt_nil]
  | cons c cs ih =>
    cases hm : matchPercentAt (c :: cs) with
    | some w =>
      simp only [scanPercent, hm]
      constructor
      · intro h
        refine ⟨0, ?_, fun j hj => absurd hj (Nat.not_lt_zero j)⟩
        rw [List.drop_zero, hm]
        exact h
      · rintro ⟨i, hi, hmin⟩
        cases i with
        | zero =>
          rw [List.drop_zero, hm] at hi
          exact hi
        | succ k =>
          have h0 := hmin 0 (Nat.succ_pos k)
          rw [List.drop_zero, hm] at h0
          exact Option.noConfusion h0
    | none =>
      simp only [scanPercent, hm]
      rw [ih]
      constructor
      · rintro ⟨i, hi, hmin⟩
        refine ⟨i + 1, by simpa using hi, fun j hj => ?_⟩
        cases j with
        | zero => simpa using hm
        | succ k => simpa using hmin k (by omega)
      · rintro ⟨i, hi, hmin⟩
        cases i with
        | zero =>
          rw [List.drop_zero, hm] at hi
          exact Option.noConfusion hi
        | succ k =>
          exact ⟨k, by simpa using hi, fun j hj => by simpa using hmin (j + 1) (by omega)⟩

theorem scanPercent_eq_none_iff (s : List Char) :
    scanPercent s = Option.none ↔ ∀ i, matchPercentAt (s.drop i) = Option.none := by
  induction s with
  | nil =>
    simp [scanPercent, List.drop_nil, matchPercentAt_nil]
  | cons c cs ih =>
    cases hm : matchPercentAt (c :: cs) with
    | some w =>
      simp only [scanPercent, hm]
      constructor
      · intro h
        exact Option.noConfusion h
      · intro h
        have h0 := h 0
        rw [List.drop_zero, hm] at h0
        exact Option.noConfusion h0
    | none =>
      simp only [scanPercent, hm]
      rw [ih]
      constructor
      · intro h i
        cases i with
        | zero => simpa using hm
        | succ k => simpa using h k
      · intro h k
        simpa using h (k + 1)

/-- C5: `extract_percentage` returns the value of the first left-to-right
match of the pattern "one or more digits, optionally a decimal point and more
digits, immediately followed by a percent sign" (`TokenAt` is that pattern's
declarative reading), and the not-found marker `None` exactly when no
position of the input matches. -/
theorem extract_percentage_first_match (s : List Char) :
    (extract_percentage s = Option.none ↔ ∀ i v, ¬ TokenAt s i v) ∧
    (∀ v, extract_percentage s = some v ↔
      ∃ i, TokenAt s i v ∧ ∀ j w, TokenAt s j w → i ≤ j) := by
  constructor
  · rw [show extract_percentage s = scanPercent s from rfl, scanPercent_eq_none_iff]
    constructor
    · intro h i v hT
      have hm := matchPercentAt_sound _ _ hT
      rw [h i] at hm
      exact Option.noConfusion hm
    · intro h i
      cases hm : matchPercentAt (s.drop i) with
      | none => rfl
      | some w => exact absurd (matchPercentAt_complete _ _ hm) (h i w)
  · intro v
    rw [show extract_percentage s = scanPercent s from rfl, scanPercent_eq_some_iff]
    constructor
    · rintro ⟨i, hi, hmin⟩
      refine ⟨i, matchPercentAt_complete _ _ hi, fun j w hT => ?_⟩
      by_contra hji
      have hj := hmin j (by omega)
      have hms := matchPercentAt_sound _ _ hT
      rw [hj] at hms
      exact Option.noConfusion hms
    · rintro ⟨i, hT, hle⟩
      refine ⟨i, matchPercentAt_sound _ _ hT, fun j hj => ?_⟩
      cases hm : matchPercentAt (s.drop j) with
      | none => rfl
      | some w =>
        have := hle j w (matchPercentAt_complete _ _ hm)
        omega

/-- C6 (amended): if "12.5%" occurs at a position of the text before which no
position matches the percent pattern, extraction returns 12.5 — mere
containment of "12.5%" is not enough, since an earlier match (e.g. a "7%"
before it) or an immediately preceding digit (as in "312.5%") changes the
result; and a text with no number-percent token anywhere yields the
not-found marker `None`. -/
theorem extract_percentage_twelve_point_five :
    (∀ s i, (chars "12.5%") <+: s.drop i →
      (∀ j, j < i → matchPercentAt (s.drop j) = Option.none) →
      extract_percentage s = some 12.5) ∧
    (∀ s, (∀ i v, ¬ TokenAt s i v) → extract_percentage s = Option.none) := by
  constructor
  · intro s i hpre hmin
    obtain ⟨u, hu⟩ := hpre
    have hp : ['1', '2'] ++ '.' :: (['5'] ++ ['%']) = chars "12.5%" := by decide
    have hm : matchPercentAt (s.drop i) = some 12.5 := by
      apply matchPercentAt_sound
      right
      have e1 : digitsToNat ['1', '2'] = 12 := by decide
      have e2 : digitsToNat ['5'] = 5 := by decide
      refine ⟨['1', '2'], ['5'], ⟨by decide, by decide⟩, ⟨by decide, by decide⟩,
        ⟨u, ?_⟩, by rw [e1, e2]; norm_num⟩
      rw [hp]
      exact hu
    rw [show extract_percentage s = scanPercent s from rfl, scanPercent_eq_some_iff]
    exact ⟨i, hm, hmin⟩
  · intro s h
    rw [show extract_percentage s = scanPercent s from rfl, scanPercent_eq_none_iff]
    intro i
    cases hm : matchPercentAt (s.drop i) with
    | none => rfl
    | some w => exact absurd (matchPercentAt_complete _ _ hm) (h i w)

/-- Witness for C6: "sobe 12.5% a" has its only percent token at position 5
and extraction returns 12.5; "abc" has no token and extraction returns
`None`. -/
theorem extract_percentage_twelve_point_five_witness :
    extract_percentage (chars "sobe 12.5% a") = some 12.5 ∧
    extract_percentage (chars "abc") = Option.none := by
  constructor
  · exact extract_percentage_twelve_point_five.1 (chars "sobe 12.5% a") 5 (by decide)
      (by decide)
  · apply extract_percentage_twelve_point_five.2
    intro i v hT
    have hms := matchPercentAt_sound _ _ hT
    have hnone : matchPercentAt ((chars "abc").drop i) = Option.none := by
      rcases Nat.lt_or_ge i 3 with h4 | h4
      · interval_cases i <;> decide
      · have h4' : (chars "abc").length ≤ i := h4
        rw [List.drop_eq_nil_of_le h4']
        exact matchPercentAt_nil
    rw [hnone] at hms
    exact Option.noConfusion hms

/-- Counterexample to C6 as stated: "7% e 12.5%" contains "12.5%", yet
extraction returns the first match 7.0, not 12.5. -/
theorem extract_percentage_contains_cex :
    (chars "12.5%") <:+: (chars "7% e 12.5%") ∧
    extract_percentage (chars "7% e 12.5%") = some 7 ∧ (7 : ℚ) ≠ 12.5 :=
  ⟨by decide, by decide, by norm_num⟩

theorem findSub_eq_some_of (pat s : List Char) (i : Nat)
    (h : pat <+: s.drop i) (hmin : ∀ j, j < i → ¬ pat <+: s.drop j) :
    findSub pat s = some i := by
  induction s generalizing i with
  | nil =>
    cases i with
    | zero =>
      rw [List.drop_nil] at h
      simp only [findSub, if_pos h]
    | succ n =>
      rw [List.drop_nil] at h
      exact absurd h (by simpa using hmin 0 (Nat.succ_pos n))
  | cons c t ih =>
    cases i with
    | zero =>
      rw [List.drop_zero] at h
      simp only [findSub, if_pos h]
    | succ n =>
      have h0 : ¬ pat <+: (c :: t) := by simpa using hmin 0 (Nat.succ_pos n)
      have ht : findSub pat t = some n := by
        refine ih n (by simpa using h) fun j hj => ?_
        simpa using hmin (j + 1) (by omega)
      simp only [findSub, if_neg h0, ht, Option.map_some']

theorem rfindSub_eq_none_of (pat s : List Char)
    (h : ∀ j, ¬ pat <+: s.drop j) : rfindSub pat s = Option.none := by
  induction s with
  | nil =>
    have h0 := h 0
    rw [List.drop_nil] at h0
    simp only [rfindSub, if_neg h0]
  | cons c t ih =>
    have ht : rfindSub pat t = Option.none := ih fun j => by simpa using h (j + 1)
    have h0 : ¬ pat <+: (c :: t) := by simpa using h 0
    simp only [rfindSub, ht, if_neg h0]

theorem rfindSub_eq_some_of (pat s : List Char) (i : Nat)
    (h : pat <+: s.drop i) (hmax : ∀ j, i < j → ¬ pat <+: s.drop j) :
    rfindSub pat s = some i := by
  induction s generalizing i with
  | nil =>
    rw [List.drop_nil] at h
    have := hmax (i + 1) (by omega)
    rw [List.drop_nil] at this
    exact absurd h this
  | cons c t ih =>
    cases i with
    | zero =>
      rw [List.drop_zero] at h
      have ht : rfindSub pat t = Option.none :=
        rfindSub_eq_none_of pat t fun j => by simpa using hmax (j + 1) (Nat.succ_pos j)
      simp only [rfindSub, ht, if_pos h]
    | succ n =>
      have ht : rfindSub pat t = some n := by
        refine ih n (by simpa using h) fun j hj => ?_
        simpa using hmax (j + 1) (by omega)
      simp only [rfindSub, ht]


theorem prefix_of_prefix_append_of_le (p u X : List Char) (h : p <+: u ++ X)
    (hle : p.length ≤ u.length) : p <+: u := by
  obtain ⟨w, hw⟩ := h
  have hL : (p ++ w).take p.length = p := by
    rw [List.take_append_eq_append_take, List.take_length, Nat.sub_self, List.take_zero,
      List.append_nil]
  have hR : (u ++ X).take p.length = u.take p.length := by
    rw [List.take_append_eq_append_take, Nat.sub_eq_zero_of_le hle, List.take_zero,
      List.append_nil]
  have hp : p = u.take p.length := by
    conv_lhs => rw [← hL]
    rw [hw, hR]
  have hq := List.take_prefix p.length u
  rwa [← hp] at hq

theorem findSub_tag (pre rest : List Char) (hpre : ¬ (chars "```json") <:+: pre) :
    findSub (chars "```json") (pre ++ (chars "```json" ++ rest)) = some pre.length := by
  apply findSub_eq_some_of
  · rw [List.drop_left]
    exact List.prefix_append _ _
  · intro j hj hcon
    have h7 : (chars "```json").length = 7 := rfl
    have hdrop : (pre ++ (chars "```json" ++ rest)).drop j =
        pre.drop j ++ (chars "```json" ++ rest) := by
      rw [List.drop_append_eq_append_drop, Nat.sub_eq_zero_of_le (le_of_lt hj), List.drop_zero]
    rw [hdrop] at hcon
    have hulen : (pre.drop j).length = pre.length - j := List.length_drop j pre
    rcases le_or_lt 7 (pre.drop j).length with hlen | hlen
    · have htag : (chars "```json") <+: pre.drop j :=
        prefix_of_prefix_append_of_le _ _ _ hcon (by omega)
      exact hpre (htag.isInfix.trans (List.drop_suffix j pre).isInfix)
    · obtain ⟨w, hw⟩ := hcon
      set k := (pre.drop j).length with hk
      have hk1 : 1 ≤ k := by omega
      have hz1 : k - (chars "```json").length = 0 := by rw [h7]; omega
      have hLtake : (chars "```json" ++ w).take k = (chars "```json").take k := by
        rw [List.take_append_eq_append_take, hz1, List.take_zero, List.append_nil]
      have hRtake : (pre.drop j ++ (chars "```json" ++ rest)).take k = pre.drop j :=
        List.take_left' rfl
      have hLdrop : (chars "```json" ++ w).drop k = (chars "```json").drop k ++ w := by
        rw [List.drop_append_eq_append_drop, hz1, List.drop_zero]
      have hRdrop : (pre.drop j ++ (chars "```json" ++ rest)).drop k =
          chars "```json" ++ rest := List.drop_left' rfl
      have hdrop_eq : (chars "```json").drop k ++ w = chars "```json" ++ rest := by
        rw [← hLdrop, hw, hRdrop]
      have hfin : (chars "```json").drop k = (chars "```json").take (7 - k) := by
        have hlen2 : ((chars "```json").drop k).length = 7 - k := by
          rw [List.length_drop, h7]
        have hz2 : 7 - k - (chars "```json").length = 0 := by rw [h7]; omega
        have h2 := congrArg (List.take (7 - k)) hdrop_eq
        rw [List.take_left' hlen2] at h2
        rw [h2, List.take_append_eq_append_take, hz2, List.take_zero, List.append_nil]
      have hover : ∀ k', k' < 7 → 1 ≤ k' →
          ¬ ((chars "```json").drop k' = (chars "```json").take (7 - k')) := by decide
      exact hover k (by omega) hk1 hfin

theorem rfindSub_fence (a post : List Char) (hpost : ∀ c ∈ post, c ≠ '`') :
    rfindSub (chars "```") (a ++ (chars "```" ++ post)) = some a.length := by
  apply rfindSub_eq_some_of
  · rw [List.drop_left]
    exact List.prefix_append _ _
  · intro j hj hcon
    have h3 : (chars "```").length = 3 := rfl
    have hdrop : (a ++ (chars "```" ++ post)).drop j =
        (chars "```" ++ post).drop (j - a.length) := by
      rw [List.drop_append_eq_append_drop, List.drop_eq_nil_of_le (by omega), List.nil_append]
    rw [hdrop] at hcon
    set d := j - a.length with hd
    have hd1 : 1 ≤ d := by omega
    rcases le_or_lt 3 d with hge | hlt
    · have hsh : (chars "```" ++ post).drop d = post.drop (d - 3) := by
        rw [List.drop_append_eq_append_drop, List.drop_eq_nil_of_le (by rw [h3]; omega),
          List.nil_append, h3]
      rw [hsh] at hcon
      obtain ⟨w, hw⟩ := hcon
      have hmem : '`' ∈ post.drop (d - 3) := by
        rw [← hw]
        exact List.mem_append.mpr (Or.inl (by decide))
      exact hpost '`' (List.drop_subset _ post hmem) rfl
    · have hz3 : d - (chars "```").length = 0 := by rw [h3]; omega
      have hsh : (chars "```" ++ post).drop d = (chars "```").drop d ++ post := by
        rw [List.drop_append_eq_append_drop, hz3, List.drop_zero]
      rw [hsh] at hcon
      obtain ⟨w, hw⟩ := hcon
      have hlen : ((chars "```").drop d).length = 3 - d := by
        rw [List.length_drop, h3]
      have hz4 : 3 - d - (chars "```").length = 0 := by rw [h3]; omega
      have h2 := congrArg (List.drop (3 - d)) hw
      rw [List.drop_left' hlen] at h2
      rw [List.drop_append_eq_append_drop, hz4, List.drop_zero] at h2
      have hmem : '`' ∈ post := by
        rw [← h2]
        refine List.mem_append.mpr (Or.inl ?_)
        interval_cases d
        · decide
        · decide
      exact hpost '`' hmem rfl

theorem dropWhile_append_headNot (p : Char → Bool) (a : List Char) (c : Char) (X : List Char)
    (hc : p c = false) :
    (a ++ c :: X).dropWhile p = a.dropWhile p ++ c :: X := by
  induction a with
  | nil => simp [List.dropWhile_cons, hc]
  | cons x t ih =>
    by_cases hx : p x
    · simp [List.dropWhile_cons, hx, ih]
    · simp [List.dropWhile_cons, hx]

theorem lstrip_fenced (pre Z : List Char) :
    lstrip (pre ++ (chars "```json" ++ Z)) = lstrip pre ++ (chars "```json" ++ Z) := by
  have hsh : chars "```json" ++ Z = '`' :: (chars "``json" ++ Z) := rfl
  rw [hsh]
  simp only [lstrip]
  exact dropWhile_append_headNot pyWs pre '`' _ (by decide)

theorem rstrip_append_last (Y post : List Char) (c : Char) (hc : pyWs c = false) :
    rstrip ((Y ++ [c]) ++ post) = (Y ++ [c]) ++ rstrip post := by
  simp only [rstrip]
  have h1 : ((Y ++ [c]) ++ post).reverse = post.reverse ++ c :: Y.reverse := by simp
  rw [h1, dropWhile_append_headNot pyWs post.reverse c _ hc]
  have h2 : ((post.reverse.dropWhile pyWs) ++ c :: Y.reverse).reverse =
      (Y ++ [c]) ++ (post.reverse.dropWhile pyWs).reverse := by simp
  rw [h2]

theorem pyStrip_fenced (pre payload post : List Char) :
    pyStrip (pre ++ chars "```json" ++ payload ++ chars "```" ++ post) =
      lstrip pre ++ chars "```json" ++ payload ++ chars "```" ++ rstrip post := by
  have hassoc : pre ++ chars "```json" ++ payload ++ chars "```" ++ post =
      pre ++ (chars "```json" ++ (payload ++ (chars "```" ++ post))) := by
    simp [List.append_assoc]
  simp only [pyStrip]
  rw [hassoc, lstrip_fenced pre (payload ++ (chars "```" ++ post))]
  have hf : chars "```" = chars "``" ++ ['`'] := rfl
  have hsh : lstrip pre ++ (chars "```json" ++ (payload ++ (chars "```" ++ post))) =
      ((lstrip pre ++ chars "```json" ++ payload ++ chars "``") ++ ['`']) ++ post := by
    rw [hf]
    simp [List.append_assoc]
  rw [hsh, rstrip_append_last _ post '`' (by decide)]
  rw [hf]
  simp [List.append_assoc]

theorem mem_rstrip (post : List Char) (c : Char) (h : c ∈ rstrip post) : c ∈ post := by
  simp only [rstrip] at h
  have h1 := List.mem_reverse.mp h
  have h2 : c ∈ post.reverse := (List.dropWhile_suffix pyWs).sublist.subset h1
  exact List.mem_reverse.mp h2

/-- C1 (amended): for a reply wrapping a JSON object in a JSON-tagged fence,
`parse_llm_response` returns exactly the mapping encoded between the fence
markers, with the closing fence located by the last occurrence of "```" —
tolerant of arbitrary leading text without a "```json" marker of its own and
of arbitrary trailing text without backticks (leading and trailing whitespace
in particular); trailing text containing a backtick can defeat the
last-occurrence search, see the counterexample. -/
theorem parse_llm_response_json_fence_exact
    (pre payload post : List Char) (m : List (List Char × Json))
    (hpre : ¬ (chars "```json") <:+: pre)
    (hpost : ∀ c ∈ post, c ≠ '`')
    (hjson : jsonLoads (pyStrip payload) = some (Json.obj m)) :
    parse_llm_response (pre ++ chars "```json" ++ payload ++ chars "```" ++ post) =
      Json.obj m := by
  have hstrip := pyStrip_fenced pre payload post
  set pre2 := lstrip pre with hpre2def
  set post2 := rstrip post with hpost2def
  have hpre2 : ¬ (chars "```json") <:+: pre2 := fun hc =>
    hpre (hc.trans (List.dropWhile_suffix pyWs).isInfix)
  have hpost2 : ∀ c ∈ post2, c ≠ '`' := fun c hc => hpost c (mem_rstrip post c hc)
  have hfind : findSub (chars "```json")
      (pre2 ++ chars "```json" ++ payload ++ chars "```" ++ post2) = some pre2.length := by
    have h1 : pre2 ++ chars "```json" ++ payload ++ chars "```" ++ post2 =
        pre2 ++ (chars "```json" ++ (payload ++ (chars "```" ++ post2))) := by
      simp [List.append_assoc]
    rw [h1]
    exact findSub_tag pre2 _ hpre2
  have hrfind : rfindSub (chars "```")
      (pre2 ++ chars "```json" ++ payload ++ chars "```" ++ post2) =
      some ((pre2 ++ chars "```json" ++ payload).length) := by
    have h1 : pre2 ++ chars "```json" ++ payload ++ chars "```" ++ post2 =
        (pre2 ++ chars "```json" ++ payload) ++ (chars "```" ++ post2) := by
      simp [List.append_assoc]
    rw [h1]
    exact rfindSub_fence _ post2 hpost2
  simp only [parse_llm_response, fenceSlice]
  rw [hstrip, hfind, hrfind]
  simp only [Option.getD_some]
  have hslice : pySlice (pre2 ++ chars "```json" ++ payload ++ chars "```" ++ post2)
      (pre2.length + 7) ((pre2 ++ chars "```json" ++ payload).length) = payload := by
    simp only [pySlice]
    have h1 : pre2 ++ chars "```json" ++ payload ++ chars "```" ++ post2 =
        (pre2 ++ chars "```json" ++ payload) ++ (chars "```" ++ post2) := by
      simp [List.append_assoc]
    rw [h1, List.take_left]
    have h2 : pre2 ++ chars "```json" ++ payload = (pre2 ++ chars "```json") ++ payload := by
      simp [List.append_assoc]
    have hlen : (pre2 ++ chars "```json").length = pre2.length + 7 := by
      rw [List.length_append]
      rfl
    rw [h2, List.drop_left' hlen]
  rw [hslice, hjson]

/-- Witness for C1: prose before the fence, whitespace and prose after it,
and the payload object with key "a" and value 1 is returned exactly. -/
theorem parse_llm_response_json_fence_exact_witness :
    parse_llm_response (chars "Claro! " ++ chars "```json" ++ chars "\n\x7b\"a\": 1\x7d\n" ++
      chars "```" ++ chars "  obrigado") = Json.obj [(chars "a", Json.jint 1)] :=
  parse_llm_response_json_fence_exact (chars "Claro! ") (chars "\n\x7b\"a\": 1\x7d\n")
    (chars "  obrigado") [(chars "a", Json.jint 1)] (by decide) (by decide) rfl
